import Mathlib

/-!
Formal model of the QPSO smart-grid optimizer of this repository
(`vqrl_qpso_smartgrid.py`): the `SmartGridEnv` action/reward interface and
the `QPSO` class with its `update` loop, embedded shallowly.  Machine
floats are modelled as real numbers (rationals where no transcendental
function occurs); the external power-flow solver (`pandapower.runpp`) is
an abstract state transformer, with a fallible variant making its possible
divergence (a Python exception) explicit.
-/

namespace VQRLQPSO

/-- Values that `np.random.random` can return: uniform samples over the
half-open interval `[0, 1)`.  `QPSO.update` draws `u`, `phi` and the sign
seed this way (lines 79-85 of `vqrl_qpso_smartgrid.py`); no clamping or
resampling is applied to the draws before use. -/
def npRandomUnit (x : ℝ) : Prop := 0 ≤ x ∧ x < 1

/-- `SmartGridEnv`: the part mutated by `apply_action` is the generator
dispatch column `net.gen['p_mw']` of the pandapower network. -/
structure SmartGridEnv where
  genP : List ℚ
  deriving DecidableEq

/-- The loop `for i, adj in enumerate(gen_adjustments[:54]):
net.gen.at[i, 'p_mw'] += adj` : pairwise addition that stops as soon as
the adjustment list runs out, leaving the remaining generators untouched. -/
def addAdjust : List ℚ → List ℚ → List ℚ
  | gens, [] => gens
  | [], _ :: _ => []
  | g :: gens, a :: adjs => (g + a) :: addAdjust gens adjs

/-- `SmartGridEnv.apply_action`: slice the action to its first 54 entries
and add them onto the dispatch column (the subsequent `pp.runpp` call only
refreshes the solver result tables, modelled separately as
`PowerFlowResult`). -/
def SmartGridEnv.apply_action (env : SmartGridEnv) (gen_adjustments : List ℚ) :
    SmartGridEnv :=
  ⟨addAdjust env.genP (gen_adjustments.take 54)⟩

/-- Result tables produced by the external power-flow solver `pp.runpp`:
`res_line.loading_percent` and `res_bus.vm_pu`. -/
structure PowerFlowResult where
  loading_percent : List ℚ
  vm_pu : List ℚ

/-- `SmartGridEnv.get_reward` as a function of the solver results it reads
after `pp.runpp`: `-(0.7 * congestion + 0.3 * voltage deviation)` with
`congestion = Σ max(0, loading_percent - 100)` and
`voltage deviation = Σ |vm_pu - 1|`. -/
def get_reward (res : PowerFlowResult) : ℚ :=
  let congestion := (res.loading_percent.map fun l => max 0 (l - 100)).sum
  let v_dev := (res.vm_pu.map fun v => |v - 1|).sum;
  -(0.7 * congestion + 0.3 * v_dev)

/-- C3 counterexample: the claim asserts the random factor `u_d` is drawn
from an interval bounded away from 0 (`u_d ∈ (ε, 1]`, enforced by clamping
or resampling).  In the code `u = np.random.random(...)`, whose range is
`[0, 1)`: the draw `0` is admissible and no positive floor `ε` bounds the
admissible draws away from 0. -/
theorem no_positive_floor_for_u :
    npRandomUnit 0 ∧
      ¬ ∃ ε : ℝ, 0 < ε ∧ ∀ x : ℝ, npRandomUnit x → ε < x ∧ x ≤ 1 := by
  refine ⟨⟨le_rfl, by norm_num⟩, ?_⟩
  rintro ⟨ε, hε, h⟩
  have h0 := (h 0 ⟨le_rfl, by norm_num⟩).1
  linarith

/-- C3 amended: `u_d` is drawn from `[0, 1)` and used raw — `u_d = 0` is
an admissible draw (so no positive floor exists), and over the admissible
positive draws the displacement factor `ln (1 / u_d)` that `QPSO.update`
applies is unbounded above. -/
theorem u_zero_admissible_and_log_unbounded :
    npRandomUnit 0 ∧
      ∀ M : ℝ, ∃ x : ℝ, npRandomUnit x ∧ 0 < x ∧ M < Real.log (1 / x) := by
  refine ⟨⟨le_rfl, by norm_num⟩, fun M => ?_⟩
  have h1 : (0 : ℝ) < |M| + 1 := by positivity
  refine ⟨Real.exp (-(|M| + 1)), ⟨(Real.exp_pos _).le, ?_⟩, Real.exp_pos _, ?_⟩
  · calc Real.exp (-(|M| + 1)) < Real.exp 0 := Real.exp_lt_exp.mpr (by linarith)
    _ = 1 := Real.exp_zero
  · rw [one_div, ← Real.exp_neg, neg_neg, Real.log_exp]
    have := le_abs_self M
    linarith

/-- C6 counterexample: the claim asserts an action with fewer than `D`
elements makes `apply_action` fail fast rather than apply a partial
adjustment.  With two generators and a one-element action the code applies
the partial adjustment and succeeds: the first generator is adjusted, the
second left alone, and no failure occurs (the operation is total). -/
theorem apply_action_partial_on_short_action :
    SmartGridEnv.apply_action ⟨[10, 20]⟩ [1] = ⟨[11, 20]⟩ := by
  show SmartGridEnv.mk (addAdjust [10, 20] (List.take 54 [1])) = ⟨[11, 20]⟩
  norm_num [addAdjust]

/-- Splitting lemma for the adjustment loop: when the action is exactly as
long as a prefix of the generator table, that prefix is adjusted pairwise
and the suffix is returned unchanged. -/
theorem addAdjust_append (g₁ g₂ : List ℚ) :
    ∀ a : List ℚ, a.length = g₁.length →
      addAdjust (g₁ ++ g₂) a = List.zipWith (fun x y => x + y) g₁ a ++ g₂ := by
  induction g₁ with
  | nil =>
    intro a h
    rw [List.length_nil, List.length_eq_zero] at h
    subst h
    simp [addAdjust]
  | cons g gs ih =>
    intro a h
    cases a with
    | nil => simp at h
    | cons x xs =>
      simp only [List.cons_append, addAdjust, List.zipWith]
      exact congrArg (List.cons (g + x)) (ih xs (by simpa using h))

/-- C6 amended: `apply_action` ignores action elements beyond the first 54
(the hard-coded slice bound, equal to the swarm dimension used in this
repository); an action with fewer than `D` elements is applied partially —
the first `len(action)` generators are adjusted pairwise and the rest are
left unchanged — with no failure. -/
theorem apply_action_excess_and_short :
    (∀ (env : SmartGridEnv) (a : List ℚ),
        SmartGridEnv.apply_action env a = SmartGridEnv.apply_action env (a.take 54)) ∧
      ∀ (g₁ g₂ a : List ℚ), a.length = g₁.length → a.length ≤ 54 →
        SmartGridEnv.apply_action ⟨g₁ ++ g₂⟩ a
          = ⟨List.zipWith (fun x y => x + y) g₁ a ++ g₂⟩ := by
  constructor
  · intro env a
    show SmartGridEnv.mk (addAdjust env.genP (a.take 54))
        = SmartGridEnv.mk (addAdjust env.genP ((a.take 54).take 54))
    simp [List.take_take]
  · intro g₁ g₂ a hlen hle
    show SmartGridEnv.mk (addAdjust (g₁ ++ g₂) (a.take 54)) = _
    rw [List.take_of_length_le hle, addAdjust_append g₁ g₂ a hlen]

/-- C6 witness: both halves of the amended statement at concrete inputs —
a 55-element action equals its 54-element truncation in effect, and a
1-element action on a 2-generator table adjusts only the first generator. -/
theorem apply_action_excess_and_short_witness :
    SmartGridEnv.apply_action ⟨[5]⟩ (List.replicate 55 (0 : ℚ))
        = SmartGridEnv.apply_action ⟨[5]⟩ ((List.replicate 55 (0 : ℚ)).take 54) ∧
      SmartGridEnv.apply_action ⟨[10] ++ [20]⟩ [1]
        = ⟨List.zipWith (fun x y => x + y) [10] [1] ++ [20]⟩ :=
  ⟨apply_action_excess_and_short.1 ⟨[5]⟩ (List.replicate 55 (0 : ℚ)),
    apply_action_excess_and_short.2 [10] [20] [1] rfl (by norm_num)⟩

/-- C9: `get_reward` is `-(0.7 * congestion + 0.3 * voltage deviation)`
with `congestion = Σ max(0, loading - 100)` and deviation `Σ |vm - 1|`;
on line loadings `[105, 98, 120]` and voltages `[1.02, 0.99, 1.05]` it
evaluates to `-17.524`. -/
theorem get_reward_formula_and_instance :
    (∀ res : PowerFlowResult,
        get_reward res
          = -(0.7 * (res.loading_percent.map fun l => max 0 (l - 100)).sum +
              0.3 * (res.vm_pu.map fun v => |v - 1|).sum)) ∧
      get_reward ⟨[105, 98, 120], [1.02, 0.99, 1.05]⟩ = -17.524 := by
  refine ⟨fun res => rfl, ?_⟩
  show -(0.7 * (([105, 98, 120] : List ℚ).map fun l => max 0 (l - 100)).sum +
      0.3 * (([1.02, 0.99, 1.05] : List ℚ).map fun v => |v - 1|).sum) = -17.524
  norm_num [max_def, abs_eq_max_neg]

/-- The `QPSO` object of `vqrl_qpso_smartgrid.py`: `beta`, the particle
matrix, `pbest` (a copy of the initial particles which, in this source, is
never written again), `gbest`, and `gbest_fit` (initialised to
`float('inf')`, modelled as `⊤ : EReal`). -/
structure QPSO (N D : ℕ) where
  beta : ℝ
  particles : Fin N → Fin D → ℝ
  pbest : Fin N → Fin D → ℝ
  gbest : Fin D → ℝ
  gbest_fit : EReal

/-- `QPSO.__init__`: the positions are the random draws `initPos`
(`np.random.uniform(-1, 1, (n_particles, n_dimensions))`), `pbest` is a
copy of them, `gbest` a copy of particle 0, and `gbest_fit = float('inf')`. -/
def QPSO.init (N D : ℕ) (hN : 0 < N) (beta : ℝ)
    (initPos : Fin N → Fin D → ℝ) : QPSO N D :=
  ⟨beta, initPos, initPos, initPos ⟨0, hN⟩, ⊤⟩

/-- `np.mean(self.pbest, axis=0)`, the element-wise mean of the
personal-best vectors. -/
noncomputable def QPSO.mbest {N D : ℕ} (s : QPSO N D) : Fin D → ℝ :=
  fun j => (∑ i, s.pbest i j) / (N : ℝ)

/-- The mutable state of `QPSO.update`'s particle loop: the particle
matrix, the global best and its fitness, and the shared environment that
the fitness evaluations mutate. -/
structure LoopState (N D : ℕ) (E : Type) where
  particles : Fin N → Fin D → ℝ
  gbest : Fin D → ℝ
  gbest_fit : EReal
  env : E

/-- The position written to `self.particles[i]` (source lines 79-87):
local attractor `p = phi * pbest[i] + (1 - phi) * gbest`, a sign obtained
by thresholding a fresh uniform draw at 0.5, and the displacement
`sign * beta * |mbest - particles[i]| * log (1 / u)`. -/
noncomputable def QPSO.newpos {N D : ℕ} (beta : ℝ)
    (pbest : Fin N → Fin D → ℝ) (mbest : Fin D → ℝ)
    (u phi r : Fin N → Fin D → ℝ) (i : Fin N)
    (gbestCur posCur : Fin D → ℝ) : Fin D → ℝ :=
  fun j =>
    (phi i j * pbest i j + (1 - phi i j) * gbestCur j) +
      (if r i j > 0.5 then (1 : ℝ) else -1) * beta *
        |mbest j - posCur j| * Real.log (1 / u i j)

/-- The body of `for i in range(self.n_particles)` in `QPSO.update`: move
particle `i`, apply its new position to the shared environment, read the
negated reward as the fitness, and update `gbest`/`gbest_fit` on strict
improvement.  `applyAct`/`getRew` model `env.apply_action`/`env.get_reward`
for runs on which the power-flow solver converges. -/
noncomputable def QPSO.body {N D : ℕ} {E : Type}
    (applyAct : (Fin D → ℝ) → E → E) (getRew : E → ℝ)
    (beta : ℝ) (pbest : Fin N → Fin D → ℝ) (mbest : Fin D → ℝ)
    (u phi r : Fin N → Fin D → ℝ) (i : Fin N) (st : LoopState N D E) :
    LoopState N D E :=
  let newpos := QPSO.newpos beta pbest mbest u phi r i st.gbest (st.particles i)
  let particles' := Function.update st.particles i newpos
  let env' := applyAct newpos st.env
  let fit : ℝ := -(getRew env');
  if (fit : EReal) < st.gbest_fit then ⟨particles', newpos, (fit : EReal), env'⟩
  else ⟨particles', st.gbest, st.gbest_fit, env'⟩

/-- The first `k` iterations of `QPSO.update`'s particle loop. -/
noncomputable def QPSO.loopTo {N D : ℕ} {E : Type}
    (applyAct : (Fin D → ℝ) → E → E) (getRew : E → ℝ)
    (s : QPSO N D) (env : E) (u phi r : Fin N → Fin D → ℝ) :
    ℕ → LoopState N D E
  | 0 => ⟨s.particles, s.gbest, s.gbest_fit, env⟩
  | k + 1 =>
    if h : k < N then
      QPSO.body applyAct getRew s.beta s.pbest s.mbest u phi r ⟨k, h⟩
        (QPSO.loopTo applyAct getRew s env u phi r k)
    else QPSO.loopTo applyAct getRew s env u phi r k

/-- `QPSO.update(env)`: compute `mbest` from `pbest`, run the particle
loop over the whole swarm, and return the updated object, the mutated
environment, and the method's return value `self.gbest`. -/
noncomputable def QPSO.update {N D : ℕ} {E : Type}
    (applyAct : (Fin D → ℝ) → E → E) (getRew : E → ℝ)
    (s : QPSO N D) (env : E) (u phi r : Fin N → Fin D → ℝ) :
    QPSO N D × E × (Fin D → ℝ) :=
  let last := QPSO.loopTo applyAct getRew s env u phi r N
  (⟨s.beta, last.particles, s.pbest, last.gbest, last.gbest_fit⟩,
    last.env, last.gbest)

/-- Same loop body with the power-flow solver's possible divergence (a
Python exception raised inside `env.apply_action` or `env.get_reward`)
made explicit: the source has no handler, so a failure propagates. -/
noncomputable def QPSO.bodyExc {N D : ℕ} {E : Type}
    (applyAct : (Fin D → ℝ) → E → Option E) (getRew : E → Option ℝ)
    (beta : ℝ) (pbest : Fin N → Fin D → ℝ) (mbest : Fin D → ℝ)
    (u phi r : Fin N → Fin D → ℝ) (i : Fin N) (st : LoopState N D E) :
    Option (LoopState N D E) :=
  let newpos := QPSO.newpos beta pbest mbest u phi r i st.gbest (st.particles i)
  let particles' := Function.update st.particles i newpos
  (applyAct newpos st.env).bind fun env' =>
    (getRew env').map fun rew =>
      let fit : ℝ := -rew;
      if (fit : EReal) < st.gbest_fit then ⟨particles', newpos, (fit : EReal), env'⟩
      else ⟨particles', st.gbest, st.gbest_fit, env'⟩

/-- The first `k` iterations of the particle loop with solver divergence
made explicit; a raised exception aborts the remaining iterations. -/
noncomputable def QPSO.loopToExc {N D : ℕ} {E : Type}
    (applyAct : (Fin D → ℝ) → E → Option E) (getRew : E → Option ℝ)
    (s : QPSO N D) (env : E) (u phi r : Fin N → Fin D → ℝ) :
    ℕ → Option (LoopState N D E)
  | 0 => some ⟨s.particles, s.gbest, s.gbest_fit, env⟩
  | k + 1 =>
    if h : k < N then
      (QPSO.loopToExc applyAct getRew s env u phi r k).bind
        (QPSO.bodyExc applyAct getRew s.beta s.pbest s.mbest u phi r ⟨k, h⟩)
    else QPSO.loopToExc applyAct getRew s env u phi r k

/-- `QPSO.update(env)` with solver divergence made explicit: `none` is a
run on which an unhandled exception escaped the method. -/
noncomputable def QPSO.updateExc {N D : ℕ} {E : Type}
    (applyAct : (Fin D → ℝ) → E → Option E) (getRew : E → Option ℝ)
    (s : QPSO N D) (env : E) (u phi r : Fin N → Fin D → ℝ) :
    Option (QPSO N D × E × (Fin D → ℝ)) :=
  (QPSO.loopToExc applyAct getRew s env u phi r N).map fun last =>
    (⟨s.beta, last.particles, s.pbest, last.gbest, last.gbest_fit⟩,
      last.env, last.gbest)

theorem QPSO.body_particles {N D : ℕ} {E : Type}
    (applyAct : (Fin D → ℝ) → E → E) (getRew : E → ℝ)
    (beta : ℝ) (pbest : Fin N → Fin D → ℝ) (mbest : Fin D → ℝ)
    (u phi r : Fin N → Fin D → ℝ) (i : Fin N) (st : LoopState N D E) :
    (QPSO.body applyAct getRew beta pbest mbest u phi r i st).particles
      = Function.update st.particles i
          (QPSO.newpos beta pbest mbest u phi r i st.gbest (st.particles i)) := by
  simp only [QPSO.body]
  split <;> rfl

theorem QPSO.body_env {N D : ℕ} {E : Type}
    (applyAct : (Fin D → ℝ) → E → E) (getRew : E → ℝ)
    (beta : ℝ) (pbest : Fin N → Fin D → ℝ) (mbest : Fin D → ℝ)
    (u phi r : Fin N → Fin D → ℝ) (i : Fin N) (st : LoopState N D E) :
    (QPSO.body applyAct getRew beta pbest mbest u phi r i st).env
      = applyAct (QPSO.newpos beta pbest mbest u phi r i st.gbest (st.particles i))
          st.env := by
  simp only [QPSO.body]
  split <;> rfl

theorem QPSO.body_gbest_fit_le {N D : ℕ} {E : Type}
    (applyAct : (Fin D → ℝ) → E → E) (getRew : E → ℝ)
    (beta : ℝ) (pbest : Fin N → Fin D → ℝ) (mbest : Fin D → ℝ)
    (u phi r : Fin N → Fin D → ℝ) (i : Fin N) (st : LoopState N D E) :
    (QPSO.body applyAct getRew beta pbest mbest u phi r i st).gbest_fit
      ≤ st.gbest_fit := by
  simp only [QPSO.body]
  split
  next h => exact le_of_lt h
  next h => exact le_rfl

theorem QPSO.loopTo_particles_of_le {N D : ℕ} {E : Type}
    (applyAct : (Fin D → ℝ) → E → E) (getRew : E → ℝ)
    (s : QPSO N D) (env : E) (u phi r : Fin N → Fin D → ℝ) :
    ∀ (k : ℕ) (i : Fin N), k ≤ (i : ℕ) →
      (QPSO.loopTo applyAct getRew s env u phi r k).particles i
        = s.particles i := by
  intro k
  induction k with
  | zero => intro i _; rfl
  | succ k ih =>
    intro i hk
    by_cases h : k < N
    · simp only [QPSO.loopTo, dif_pos h, QPSO.body_particles]
      rw [Function.update_noteq (Fin.ne_of_val_ne (show (i : ℕ) ≠ k by omega))]
      exact ih i (by omega)
    · simp only [QPSO.loopTo, dif_neg h]
      exact ih i (by omega)

theorem QPSO.loopTo_particles_stable {N D : ℕ} {E : Type}
    (applyAct : (Fin D → ℝ) → E → E) (getRew : E → ℝ)
    (s : QPSO N D) (env : E) (u phi r : Fin N → Fin D → ℝ) :
    ∀ (k : ℕ) (i : Fin N), (i : ℕ) < k →
      (QPSO.loopTo applyAct getRew s env u phi r k).particles i
        = (QPSO.loopTo applyAct getRew s env u phi r ((i : ℕ) + 1)).particles i := by
  intro k
  induction k with
  | zero => intro i h; exact absurd h (Nat.not_lt_zero _)
  | succ k ih =>
    intro i hik
    rcases Nat.lt_succ_iff_lt_or_eq.mp hik with h | h
    · by_cases hk : k < N
      · simp only [QPSO.loopTo, dif_pos hk, QPSO.body_particles]
        rw [Function.update_noteq (Fin.ne_of_val_ne (show (i : ℕ) ≠ k by omega))]
        exact ih i h
      · simp only [QPSO.loopTo, dif_neg hk]
        exact ih i h
    · subst h
      rfl

theorem QPSO.loopTo_row_formula {N D : ℕ} {E : Type}
    (applyAct : (Fin D → ℝ) → E → E) (getRew : E → ℝ)
    (s : QPSO N D) (env : E) (u phi r : Fin N → Fin D → ℝ) (i : Fin N) :
    (QPSO.loopTo applyAct getRew s env u phi r ((i : ℕ) + 1)).particles i
      = QPSO.newpos s.beta s.pbest s.mbest u phi r i
          (QPSO.loopTo applyAct getRew s env u phi r (i : ℕ)).gbest
          (s.particles i) := by
  have h : (i : ℕ) < N := i.isLt
  simp only [QPSO.loopTo, dif_pos h, QPSO.body_particles, Fin.eta,
    Function.update_same]
  rw [QPSO.loopTo_particles_of_le applyAct getRew s env u phi r (i : ℕ) i le_rfl]

theorem QPSO.loopTo_gbest_fit_le {N D : ℕ} {E : Type}
    (applyAct : (Fin D → ℝ) → E → E) (getRew : E → ℝ)
    (s : QPSO N D) (env : E) (u phi r : Fin N → Fin D → ℝ) :
    ∀ k : ℕ, (QPSO.loopTo applyAct getRew s env u phi r k).gbest_fit
      ≤ s.gbest_fit := by
  intro k
  induction k with
  | zero => exact le_rfl
  | succ k ih =>
    by_cases h : k < N
    · simp only [QPSO.loopTo, dif_pos h]
      exact le_trans (QPSO.body_gbest_fit_le _ _ _ _ _ _ _ _ _ _) ih
    · simp only [QPSO.loopTo, dif_neg h]
      exact ih

/-- C4: after `QPSO.update`, particle `i`'s position is
`p + sign * beta * |mbest - oldPosition| * ln (1 / u)` where
`mbest` is the element-wise mean of all `pbest` vectors (computed once,
before the loop), `oldPosition` is particle `i`'s position at entry to the
update, and `p = phi * pbest[i] + (1 - phi) * gbest`, `gbest` being the
global best held when particle `i` is processed (the loop interleaves
moves and `gbest` updates, so for later particles this reflects
improvements made earlier in the same step). -/
theorem update_position_formula {N D : ℕ} {E : Type}
    (applyAct : (Fin D → ℝ) → E → E) (getRew : E → ℝ) (s : QPSO N D)
    (env : E) (u phi r : Fin N → Fin D → ℝ) (i : Fin N) :
    (QPSO.update applyAct getRew s env u phi r).1.particles i = fun j =>
      (phi i j * s.pbest i j +
        (1 - phi i j) *
          (QPSO.loopTo applyAct getRew s env u phi r (i : ℕ)).gbest j) +
      (if r i j > 0.5 then (1 : ℝ) else -1) * s.beta *
        |(∑ k, s.pbest k j) / (N : ℝ) - s.particles i j| *
          Real.log (1 / u i j) := by
  have h1 : (QPSO.update applyAct getRew s env u phi r).1.particles i
      = (QPSO.loopTo applyAct getRew s env u phi r N).particles i := rfl
  rw [h1, QPSO.loopTo_particles_stable applyAct getRew s env u phi r N i i.isLt,
    QPSO.loopTo_row_formula]
  rfl

/-- C7: with `beta = 0` the displacement term vanishes, so every particle's
updated position equals its local attractor
`p = phi * pbest[i] + (1 - phi) * gbest` exactly, whatever the draws `u`
and the sign seed `r` are (neither occurs on the right-hand side). -/
theorem update_beta_zero_attractor {N D : ℕ} {E : Type}
    (applyAct : (Fin D → ℝ) → E → E) (getRew : E → ℝ)
    (P B : Fin N → Fin D → ℝ) (G : Fin D → ℝ) (F : EReal) (env : E)
    (u phi r : Fin N → Fin D → ℝ) (i : Fin N) :
    (QPSO.update applyAct getRew ⟨0, P, B, G, F⟩ env u phi r).1.particles i
      = fun j =>
        phi i j * B i j +
          (1 - phi i j) *
            (QPSO.loopTo applyAct getRew ⟨0, P, B, G, F⟩ env u phi r (i : ℕ)).gbest j := by
  have h1 : (QPSO.update applyAct getRew ⟨0, P, B, G, F⟩ env u phi r).1.particles i
      = (QPSO.loopTo applyAct getRew ⟨0, P, B, G, F⟩ env u phi r N).particles i := rfl
  rw [h1,
    QPSO.loopTo_particles_stable applyAct getRew ⟨0, P, B, G, F⟩ env u phi r N i i.isLt,
    QPSO.loopTo_row_formula]
  funext j
  show (phi i j * B i j + (1 - phi i j) * _) +
      (if r i j > 0.5 then (1 : ℝ) else -1) * (0 : ℝ) * _ * _ = _
  ring

/-- C5: fitness evaluations mutate the single shared environment in
sequence — after particle `i`'s evaluation the environment is particle
`i`'s action applied to the environment left by particle `i - 1` (no
baseline is restored between evaluations), and the environment `update`
returns is the one left after the last particle. -/
theorem env_threaded_sequentially {N D : ℕ} {E : Type}
    (applyAct : (Fin D → ℝ) → E → E) (getRew : E → ℝ) (s : QPSO N D)
    (env : E) (u phi r : Fin N → Fin D → ℝ) (i : Fin N) :
    (QPSO.loopTo applyAct getRew s env u phi r ((i : ℕ) + 1)).env
        = applyAct
            ((QPSO.loopTo applyAct getRew s env u phi r ((i : ℕ) + 1)).particles i)
            ((QPSO.loopTo applyAct getRew s env u phi r (i : ℕ)).env) ∧
      (QPSO.update applyAct getRew s env u phi r).2.1
        = (QPSO.loopTo applyAct getRew s env u phi r N).env := by
  refine ⟨?_, rfl⟩
  have h : (i : ℕ) < N := i.isLt
  simp only [QPSO.loopTo, dif_pos h, QPSO.body_env, QPSO.body_particles,
    Fin.eta, Function.update_same]

/-- C8: `gbest_fit` is only ever overwritten by a strictly smaller
fitness, so across any call to `QPSO.update` — whatever the environment
and the random draws — the global best fitness never increases. -/
theorem gbest_fit_monotone {N D : ℕ} {E : Type}
    (applyAct : (Fin D → ℝ) → E → E) (getRew : E → ℝ) (s : QPSO N D)
    (env : E) (u phi r : Fin N → Fin D → ℝ) :
    (QPSO.update applyAct getRew s env u phi r).1.gbest_fit ≤ s.gbest_fit :=
  QPSO.loopTo_gbest_fit_le applyAct getRew s env u phi r N

/-- C10: `QPSO.update` never writes `pbest` — the field after the call is
the field before it, whatever the environment and the draws — and hence
`mbest`, which is computed from `pbest` alone, is also unchanged. -/
theorem update_preserves_pbest {N D : ℕ} {E : Type}
    (applyAct : (Fin D → ℝ) → E → E) (getRew : E → ℝ) (s : QPSO N D)
    (env : E) (u phi r : Fin N → Fin D → ℝ) :
    (QPSO.update applyAct getRew s env u phi r).1.pbest = s.pbest ∧
      QPSO.mbest (QPSO.update applyAct getRew s env u phi r).1 = QPSO.mbest s :=
  ⟨rfl, rfl⟩

/-- A 1-particle, 1-dimension swarm for exercising `QPSO.update`:
`beta = 0`, initial position and `pbest` at 2, `gbest` at 0,
`gbest_fit = inf`. -/
noncomputable def swarmA : QPSO 1 1 :=
  ⟨0, fun _ _ => 2, fun _ _ => 2, fun _ => 0, ⊤⟩

/-- `swarmA` updated against an environment whose reward is constantly
`-5` (fitness 5), with draws `u = 1`, `phi = 0`, sign seed `1`. -/
noncomputable def runA : QPSO 1 1 × Unit × (Fin 1 → ℝ) :=
  QPSO.update (fun _ _ => ()) (fun _ => (-5 : ℝ)) swarmA ()
    (fun _ _ => 1) (fun _ _ => 0) (fun _ _ => 1)

/-- C1 (code bug): evaluating `QPSO.update` at a concrete improving step.
With `phi = 0` and `beta = 0` the particle moves to the attractor `0` and
its fitness 5 improves on the best seen so far (`inf`): the code records
the improvement in `gbest`/`gbest_fit`, yet `pbest` still holds the stale
initial position 2 — there is no per-particle fitness array and step 4 of
the claimed update (compare against `personalBestFitness[i]`, update
`personalBest[i]`) does not exist in the code, so the invariant
`gbest_fit = min of personal-best fitnesses` is not maintained. -/
theorem pbest_never_updated_on_improvement :
    runA.1.pbest = (fun _ _ => (2 : ℝ)) ∧
      runA.1.gbest_fit = ((5 : ℝ) : EReal) ∧
      runA.1.gbest = fun _ => (0 : ℝ) := by
  have h0 : (0 : ℕ) < 1 := Nat.zero_lt_one
  refine ⟨rfl, ?_, ?_⟩
  · show (QPSO.loopTo (fun _ _ => ()) (fun _ => (-5 : ℝ)) swarmA ()
        (fun _ _ => 1) (fun _ _ => 0) (fun _ _ => 1) 1).gbest_fit
        = ((5 : ℝ) : EReal)
    simp only [QPSO.loopTo, dif_pos h0, QPSO.body, swarmA]
    rw [if_pos (EReal.coe_lt_top _), neg_neg]
  · show (QPSO.loopTo (fun _ _ => ()) (fun _ => (-5 : ℝ)) swarmA ()
        (fun _ _ => 1) (fun _ _ => 0) (fun _ _ => 1) 1).gbest
        = fun _ => (0 : ℝ)
    simp only [QPSO.loopTo, dif_pos h0, QPSO.body, swarmA]
    rw [if_pos (EReal.coe_lt_top _)]
    funext j
    norm_num [QPSO.newpos]

/-- A test evaluator for solver divergence: `apply_action` raises
(diverges) on the baseline environment state `0` and converges on every
other state, so only the first particle's evaluation fails. -/
def divergeAtBaseline : (Fin 1 → ℝ) → ℕ → Option ℕ :=
  fun _ e => if e = 0 then none else some (e + 1)

/-- A 2-particle, 1-dimension swarm for exercising `QPSO.updateExc`. -/
noncomputable def swarmB : QPSO 2 1 :=
  ⟨1, fun _ _ => 0, fun _ _ => 0, fun _ => 0, ⊤⟩

/-- `swarmB` updated against `divergeAtBaseline` from the baseline state
`0`: the first particle's evaluation fails, the second's would succeed. -/
noncomputable def runB : Option (QPSO 2 1 × ℕ × (Fin 1 → ℝ)) :=
  QPSO.updateExc divergeAtBaseline (fun e => some (e : ℝ)) swarmB 0
    (fun _ _ => 1) (fun _ _ => 0) (fun _ _ => 1)

/-- C2 counterexample: in a 2-particle swarm whose first particle's
fitness evaluation fails, `QPSO.update` does not assign that particle a
`+∞` fitness and continue — the unhandled failure aborts the whole step
(`runB = none`), so the second particle is never evaluated and `gbest` is
never updated, even though that second evaluation would have succeeded
(second conjunct: the evaluator converges on every non-baseline state). -/
theorem update_aborts_on_single_particle_failure :
    runB = none ∧ divergeAtBaseline (fun _ => 0) 1 = some 2 := by
  constructor
  · simp [runB, QPSO.updateExc, QPSO.loopToExc, QPSO.bodyExc, divergeAtBaseline]
  · rfl

/-- C2 amended: a fitness-evaluation failure is not handled anywhere in
`QPSO.update` — if the solver fails on every call (so in particular on the
first particle's evaluation), the whole step aborts with the exception
propagating out of the method: no `+∞` fitness is assigned, no later
particle is evaluated, and `gbest` is not updated. -/
theorem update_propagates_eval_failure {N D : ℕ} {E : Type}
    (applyAct : (Fin D → ℝ) → E → Option E) (getRew : E → Option ℝ)
    (s : QPSO N D) (env : E) (u phi r : Fin N → Fin D → ℝ)
    (hN : 0 < N) (hA : ∀ a e, applyAct a e = none) :
    QPSO.updateExc applyAct getRew s env u phi r = none := by
  have key : ∀ k : ℕ, QPSO.loopToExc applyAct getRew s env u phi r (k + 1) = none := by
    intro k
    induction k with
    | zero =>
      rw [QPSO.loopToExc, dif_pos hN]
      simp only [QPSO.loopToExc, Option.some_bind, QPSO.bodyExc, hA]
      simp
    | succ k ih =>
      rw [QPSO.loopToExc]
      by_cases h : k + 1 < N
      · rw [dif_pos h, ih, Option.none_bind]
      · rw [dif_neg h]
        exact ih
  obtain ⟨m, hm⟩ : ∃ m, N = m + 1 := ⟨N - 1, by omega⟩
  subst hm
  simp only [QPSO.updateExc, key m, Option.map_none']

/-- C2 witness: the amended theorem applied to `swarmB` with an evaluator
that always fails — the update returns `none`. -/
theorem update_propagates_eval_failure_witness :
    QPSO.updateExc (fun _ _ => (none : Option ℕ)) (fun e => some ((e : ℕ) : ℝ))
      swarmB 0 (fun _ _ => 1) (fun _ _ => 0) (fun _ _ => 1) = none :=
  update_propagates_eval_failure _ _ swarmB 0 _ _ _ (by norm_num)
    (fun _ _ => rfl)

end VQRLQPSO
